import Mathlib

/-!
Verification of the TXO / TXOInfo record types of Fulcrum (src/TXO.h):
the UTXO-index key type `TXO` (txHash, outN), its value type `TXOInfo`
(amount, hashX, confirmedHeight, txNum), their fixed-width binary
serialization, validity gates, ordering, and the `std::hash<TXO>` digest.

Byte strings are modelled as `List Nat`; each entry stands for one byte of
memory (readers reduce entries mod 256, as memory holds only bytes).
Machine integers are modelled as `Nat` / `Int` with explicit reductions
mod powers of two where the C++ code truncates.
-/

/-- Little-endian encoding of `n` into `w` bytes, truncating above `2^(8*w)`.
Models `std::memcpy` of a `w`-byte native-endian integer on the
little-endian platforms Fulcrum targets. -/
def toLE : Nat → Nat → List Nat
  | 0, _ => []
  | w + 1, n => n % 256 :: toLE w (n / 256)

/-- Little-endian decoding of a byte list into a `Nat`.  Models reading a
native-endian unsigned integer back out of memory; each memory cell is a
byte, hence the reduction mod 256. -/
def fromLE : List Nat → Nat
  | [] => 0
  | b :: bs => b % 256 + 256 * fromLE bs

/-- Reinterpret an unsigned `bits`-bit value as a signed (two's-complement)
integer, as `std::memcpy` into an `int` / `int64_t` does. -/
def sint (bits u : Nat) : Int :=
  if u % 2 ^ bits < 2 ^ (bits - 1) then ((u % 2 ^ bits : Nat) : Int)
  else ((u % 2 ^ bits : Nat) : Int) - 2 ^ bits

/-- `std::memcpy(buf + off, src, src.length)`: overwrite `src.length` bytes
of `buf` starting at offset `off`. -/
def writeBytes (buf : List Nat) (off : Nat) (src : List Nat) : List Nat :=
  buf.take off ++ src ++ buf.drop (off + src.length)

/-- Lexicographic (memcmp-style) `<` on byte strings: `QByteArray::operator<`. -/
def bytesLt : List Nat → List Nat → Bool
  | [], [] => false
  | [], _ :: _ => true
  | _ :: _, [] => false
  | a :: as, b :: bs => if a < b then true else if b < a then false else bytesLt as bs

/-- Modelled from the spec: `HashLen` is declared in `BlockProcTypes.h`,
which is not part of this core; the spec fixes hash fields to a
fixed-length digest and all of its examples use a 32-byte hash. -/
def HashLen : Nat := 32

/-- Modelled from the spec: `IONum` is declared in `BlockProcTypes.h`,
which is not part of this core; the spec describes it as a 2-byte
unsigned output index (`8 - sizeof(IONum) = 6`). -/
def ionumSize : Nat := 2

/-- Modelled from the spec: the compact txNum codec lives in
`TXO_Compact.h`, outside this core.  The spec exposes it as a fixed
width `w`; Fulcrum's codec packs the low 6 bytes little-endian. -/
def compactTxNumSize : Nat := 6

/-- Modelled from the spec: `CompactTXO::txNumToCompactBytes` writes the
txNum as `compactTxNumSize` little-endian bytes. -/
def txNumToCompactBytes (txNum : Nat) : List Nat :=
  toLE compactTxNumSize txNum

/-- Modelled from the spec: `CompactTXO::txNumFromCompactBytes` reads
`compactTxNumSize` little-endian bytes back into a txNum. -/
def txNumFromCompactBytes (bs : List Nat) : Nat :=
  fromLE (bs.take compactTxNumSize)

/-- `struct TXO`: a transaction output; a txHash:outN pair. -/
structure TXO where
  txHash : List Nat := []
  outN : Nat := 0
  deriving Repr, DecidableEq

/-- `TXO::isValid`. -/
def TXO.isValid (t : TXO) : Bool := t.txHash.length == HashLen

/-- `TXO::operator==`: fieldwise equality. -/
def TXO.beq (a b : TXO) : Bool := a.txHash == b.txHash && a.outN == b.outN

/-- `TXO::operator<` exactly as written in the source:
`txHash < o.txHash && outN < o.outN`. -/
def TXO.lt (a b : TXO) : Bool := bytesLt a.txHash b.txHash && decide (a.outN < b.outN)

/-- `TXO::serSize() = HashLen + sizeof(IONum)`. -/
def TXO.serSize : Nat := HashLen + ionumSize

/-- `TXO::toBytes`: empty if invalid, else resize to `serSize` and memcpy
the txHash bytes at offset 0 and the raw `outN` bytes after them. -/
def TXO.toBytes (t : TXO) : List Nat :=
  if t.isValid then
    writeBytes (writeBytes (List.replicate TXO.serSize 0) 0 t.txHash)
      t.txHash.length (toLE ionumSize t.outN)
  else []

/-- `TXO::fromBytes`: default (invalid) on wrong length, else the first
`HashLen` bytes become `txHash` and the next `sizeof(IONum)` bytes are
reinterpreted as `outN`. -/
def TXO.fromBytes (ba : List Nat) : TXO :=
  if ba.length ≠ TXO.serSize then {}
  else { txHash := ba.take HashLen, outN := fromLE ((ba.drop HashLen).take ionumSize) }

/-- Modelled from the spec: `std::hash<uint64_t>` is supplied by the C++
standard library, outside this core; the spec asks for a standard
well-distributed 64-bit mixing/avalanche finalizer (murmur-style). -/
def hasher64 (x : Nat) : Nat :=
  let x0 := x % 2 ^ 64
  let x1 := (x0 ^^^ (x0 >>> 33)) * 0xff51afd7ed558ccd % 2 ^ 64
  let x2 := (x1 ^^^ (x1 >>> 33)) * 0xc4ceb9fe1a85ec53 % 2 ^ 64
  x2 ^^^ (x2 >>> 33)

/-- `std::hash<TXO>::operator()`: zero an 8-byte union, memcpy the first
`min(txHash.size, 8 - sizeof(IONum))` bytes of the hash at offset 0,
memcpy the raw `outN` bytes at offset `8 - sizeof(IONum)`, read the union
as a `uint64_t` and run it through `hasher64`. -/
def keyHasher (t : TXO) : Nat :=
  let u0 := List.replicate 8 0
  let u1 := writeBytes u0 0 (t.txHash.take (min t.txHash.length (8 - ionumSize)))
  let u2 := writeBytes u1 (8 - ionumSize) (toLE ionumSize t.outN)
  hasher64 (fromLE u2)

/-- The KeyHasher algorithm as the spec words it (§4.3): an 8-byte
zero-initialized buffer, the first `min(txHash.length, 8 - sizeof(IONum))`
bytes of `txHash` copied at offset 0, the raw bytes of `outN` copied at
offset `8 - sizeof(IONum)`, the buffer read as an unsigned 64-bit integer
and passed through the 64-bit mixer. -/
def keyHasherSpec (t : TXO) : Nat :=
  let n := min t.txHash.length (8 - ionumSize)
  let buf := t.txHash.take n ++ List.replicate (8 - ionumSize - n) 0 ++ toLE ionumSize t.outN
  hasher64 (fromLE buf)

/-- `struct TXOInfo`: spend info for a txo.  `amount` is kept directly in
satoshis (`bitcoin::Amount` is an integer count of satoshis and
`amount / bitcoin::Amount::satoshi()` recovers that count). -/
structure TXOInfo where
  amount : Int := 0
  hashX : List Nat := []
  confirmedHeight : Option Nat := none
  txNum : Nat := 0
  deriving Repr, DecidableEq

/-- `TXOInfo::isValid`: `amount / satoshi >= 0 && hashX.length() == HashLen`. -/
def TXOInfo.isValid (t : TXOInfo) : Bool :=
  decide (0 ≤ t.amount) && (t.hashX.length == HashLen)

/-- `TXOInfo::operator==`: fieldwise equality. -/
def TXOInfo.beq (a b : TXOInfo) : Bool :=
  a.amount == b.amount && a.hashX == b.hashX
    && a.confirmedHeight == b.confirmedHeight && a.txNum == b.txNum

/-- `TXOInfo::serSize() = sizeof(int64_t) + sizeof(int) + compactTxNumSize + HashLen`. -/
def TXOInfo.serSize : Nat := 8 + 4 + compactTxNumSize + HashLen

/-- `TXOInfo::toBytes`: empty if invalid, else resize to `serSize` and
memcpy, in order: the 8-byte signed satoshi amount, the 4-byte signed
height sentinel (`int(*confirmedHeight)` or `-1`), the compact txNum,
and the raw hashX bytes. -/
def TXOInfo.toBytes (t : TXOInfo) : List Nat :=
  if t.isValid then
    let amtBytes := toLE 8 (t.amount % (2 : Int) ^ 64).toNat
    let chBytes := toLE 4 (match t.confirmedHeight with
      | some h => h % 2 ^ 32
      | none => 2 ^ 32 - 1)
    let b0 := List.replicate TXOInfo.serSize 0
    let b1 := writeBytes b0 0 amtBytes
    let b2 := writeBytes b1 8 chBytes
    let b3 := writeBytes b2 12 (txNumToCompactBytes t.txNum)
    writeBytes b3 18 t.hashX
  else []

/-- `TXOInfo::fromBytes`: default (invalid) on wrong length, else decode
the 8-byte signed amount, the 4-byte signed height sentinel (`> -1`
means a real height, else absent), the compact txNum, and the final
`HashLen` bytes as hashX. -/
def TXOInfo.fromBytes (ba : List Nat) : TXOInfo :=
  if ba.length ≠ TXOInfo.serSize then {}
  else
    let amt : Int := sint 64 (fromLE (ba.take 8))
    let cheight : Int := sint 32 (fromLE ((ba.drop 8).take 4))
    { amount := amt
      hashX := (ba.drop 18).take HashLen
      confirmedHeight := if cheight > -1 then some cheight.toNat else none
      txNum := txNumFromCompactBytes (ba.drop 12) }

/-! ### Helper lemmas about the byte-level primitives -/

theorem toLE_length (w n : Nat) : (toLE w n).length = w := by
  induction w generalizing n with
  | zero => rfl
  | succ w ih => simp [toLE, ih]

theorem fromLE_toLE (w n : Nat) : fromLE (toLE w n) = n % 256 ^ w := by
  induction w generalizing n with
  | zero => simp [toLE, fromLE, Nat.mod_one]
  | succ w ih =>
    calc fromLE (toLE (w + 1) n)
        = n % 256 % 256 + 256 * (n / 256 % 256 ^ w) := by simp [toLE, fromLE, ih]
      _ = n % 256 + 256 * (n / 256 % 256 ^ w) := by omega
      _ = n % (256 * 256 ^ w) := (Nat.mod_mul).symm
      _ = n % 256 ^ (w + 1) := by rw [pow_succ, mul_comm]

theorem writeBytes_replicate_zero (n : Nat) (src : List Nat) :
    writeBytes (List.replicate n 0) 0 src = src ++ List.replicate (n - src.length) 0 := by
  simp [writeBytes, List.drop_replicate]

theorem writeBytes_append (xs ys zs : List Nat) (off : Nat) (h : off = xs.length) :
    writeBytes (xs ++ ys) off zs = xs ++ (zs ++ ys.drop zs.length) := by
  subst h
  simp [writeBytes, List.take_left, List.drop_append, List.append_assoc]

theorem take_min_length (l : List Nat) (n : Nat) : l.take (min l.length n) = l.take n := by
  rcases Nat.le_total l.length n with h | h
  · rw [min_eq_left h, List.take_length, List.take_of_length_le h]
  · rw [min_eq_right h]

/-- The two memcpys of `TXO::toBytes` lay the fields out back to back. -/
theorem writeBytes_chain2 (X N : List Nat) (hX : X.length = 32) (hN : N.length = 2) :
    writeBytes (writeBytes (List.replicate 34 0) 0 X) X.length N = X ++ N := by
  rw [writeBytes_replicate_zero, hX]
  rw [writeBytes_append X _ N 32 hX.symm, hN]
  norm_num [List.drop_replicate]

/-- The four memcpys of `TXOInfo::toBytes` lay the fields out back to back. -/
theorem writeBytes_chain4 (A C T H : List Nat) (hA : A.length = 8) (hC : C.length = 4)
    (hT : T.length = 6) (hH : H.length = 32) :
    writeBytes (writeBytes (writeBytes (writeBytes (List.replicate 50 0) 0 A) 8 C) 12 T) 18 H
      = A ++ C ++ T ++ H := by
  have h1 : writeBytes (List.replicate 50 0) 0 A = A ++ List.replicate 42 0 := by
    rw [writeBytes_replicate_zero, hA]
  have h2 : writeBytes (A ++ List.replicate 42 0) 8 C
      = A ++ (C ++ List.replicate 38 0) := by
    rw [writeBytes_append A _ C 8 hA.symm, hC]
    norm_num [List.drop_replicate]
  have h3 : writeBytes (A ++ (C ++ List.replicate 38 0)) 12 T
      = A ++ (C ++ (T ++ List.replicate 32 0)) := by
    rw [← List.append_assoc,
      writeBytes_append (A ++ C) _ T 12 (by simp [hA, hC]), hT]
    norm_num [List.drop_replicate, List.append_assoc]
  have h4 : writeBytes (A ++ (C ++ (T ++ List.replicate 32 0))) 18 H
      = A ++ (C ++ (T ++ H)) := by
    rw [show A ++ (C ++ (T ++ List.replicate 32 0))
          = (A ++ C ++ T) ++ List.replicate 32 0 by simp [List.append_assoc],
      writeBytes_append (A ++ C ++ T) _ H 18 (by simp [hA, hC, hT]), hH]
    norm_num [List.drop_replicate, List.append_assoc]
  rw [h1, h2, h3, h4]
  simp [List.append_assoc]

/-- Layout of a valid `TXO` encoding: the raw txHash bytes followed by the
native little-endian bytes of `outN`. -/
theorem txo_toBytes_layout (t : TXO) (h : t.isValid = true) :
    t.toBytes = t.txHash ++ toLE ionumSize t.outN := by
  have hlen : t.txHash.length = HashLen := by
    simpa [TXO.isValid] using h
  rw [TXO.toBytes, if_pos h]
  exact writeBytes_chain2 t.txHash _ hlen (toLE_length _ _)

/-- Layout of a valid `TXOInfo` encoding: amount bytes, height-sentinel
bytes, compact txNum bytes, raw hashX bytes. -/
theorem txoinfo_toBytes_layout (t : TXOInfo) (h : t.isValid = true) :
    t.toBytes = toLE 8 (t.amount % (2 : Int) ^ 64).toNat
      ++ toLE 4 (match t.confirmedHeight with
          | some hh => hh % 2 ^ 32
          | none => 2 ^ 32 - 1)
      ++ txNumToCompactBytes t.txNum ++ t.hashX := by
  have hlen : t.hashX.length = HashLen := by
    simp [TXOInfo.isValid] at h
    exact h.2
  rw [TXOInfo.toBytes, if_pos h]
  exact writeBytes_chain4 _ _ _ _ (toLE_length _ _) (toLE_length _ _)
    (toLE_length _ _) hlen

/-- Decoding a `TXO` encoding split into its two fields. -/
theorem txo_fromBytes_parts (X N : List Nat) (hX : X.length = 32) (hN : N.length = 2) :
    TXO.fromBytes (X ++ N) = { txHash := X, outN := fromLE N } := by
  have hlen : (X ++ N).length = TXO.serSize := by
    simp [TXO.serSize, HashLen, ionumSize, hX, hN]
  rw [TXO.fromBytes, if_neg (by omega)]
  have h1 : (X ++ N).take HashLen = X := by
    rw [show HashLen = X.length by rw [hX]; rfl, List.take_left]
  have h2 : (X ++ N).drop HashLen = N := by
    rw [show HashLen = X.length by rw [hX]; rfl, List.drop_left]
  rw [h1, h2, List.take_of_length_le (by simp [hN, ionumSize])]

/-- Decoding a `TXOInfo` encoding split into its four fields. -/
theorem txoinfo_fromBytes_parts (A C T X : List Nat) (hA : A.length = 8)
    (hC : C.length = 4) (hT : T.length = 6) (hX : X.length = 32) :
    TXOInfo.fromBytes (A ++ C ++ T ++ X)
      = { amount := sint 64 (fromLE A)
          hashX := X
          confirmedHeight :=
            if sint 32 (fromLE C) > -1 then some (sint 32 (fromLE C)).toNat else none
          txNum := fromLE T } := by
  have hlen : (A ++ C ++ T ++ X).length = TXOInfo.serSize := by
    simp [TXOInfo.serSize, HashLen, compactTxNumSize, hA, hC, hT, hX]
  rw [TXOInfo.fromBytes, if_neg (by omega)]
  have h1 : (A ++ C ++ T ++ X).take 8 = A := by
    rw [show A ++ C ++ T ++ X = A ++ (C ++ (T ++ X)) by simp,
      show (8 : Nat) = A.length by rw [hA], List.take_left]
  have h2 : (A ++ C ++ T ++ X).drop 8 = C ++ (T ++ X) := by
    rw [show A ++ C ++ T ++ X = A ++ (C ++ (T ++ X)) by simp,
      show (8 : Nat) = A.length by rw [hA], List.drop_left]
  have h2a : (C ++ (T ++ X)).take 4 = C := by
    rw [show (4 : Nat) = C.length by rw [hC], List.take_left]
  have h3 : (A ++ C ++ T ++ X).drop 12 = T ++ X := by
    rw [show A ++ C ++ T ++ X = (A ++ C) ++ (T ++ X) by simp,
      show (12 : Nat) = (A ++ C).length by simp [hA, hC], List.drop_left]
  have h3a : txNumFromCompactBytes (T ++ X) = fromLE T := by
    rw [txNumFromCompactBytes,
      show compactTxNumSize = T.length by rw [hT]; rfl, List.take_left]
  have h4 : (A ++ C ++ T ++ X).drop 18 = X := by
    rw [show A ++ C ++ T ++ X = (A ++ C ++ T) ++ X by simp,
      show (18 : Nat) = (A ++ C ++ T).length by simp [hA, hC, hT], List.drop_left]
  rw [h1, h2, h2a, h3, h3a, h4,
    List.take_of_length_le (by simp [hX, HashLen])]

theorem sint_32_of_lt (u : Nat) (h : u < 2 ^ 31) : sint 32 u = (u : Int) := by
  rw [sint, if_pos (by rw [Nat.mod_eq_of_lt (by omega)]; exact h)]
  rw [Nat.mod_eq_of_lt (by omega)]

theorem sint_64_of_lt (u : Nat) (h : u < 2 ^ 63) : sint 64 u = (u : Int) := by
  rw [sint, if_pos (by rw [Nat.mod_eq_of_lt (by omega)]; exact h)]
  rw [Nat.mod_eq_of_lt (by omega)]

theorem sint_32_all_ones : sint 32 (2 ^ 32 - 1) = -1 := by decide

/-! ### Claim theorems -/

/-- C1: for every valid `TXO` key (txHash of length `HashLen`, any
representable `outN`), `TXO.fromBytes (k.toBytes)` equals `k` under
`operator==`: serialization then deserialization restores both `txHash`
and `outN` exactly. -/
theorem txo_toBytes_fromBytes_roundtrip (k : TXO) (hv : k.isValid = true)
    (hn : k.outN < 2 ^ 16) :
    TXO.beq (TXO.fromBytes k.toBytes) k = true := by
  have hlen : k.txHash.length = 32 := by
    simpa [TXO.isValid, HashLen] using hv
  rw [txo_toBytes_layout k hv,
    txo_fromBytes_parts k.txHash (toLE ionumSize k.outN) hlen (by rw [toLE_length]; rfl)]
  have hout : fromLE (toLE ionumSize k.outN) = k.outN := by
    rw [show ionumSize = 2 from rfl, fromLE_toLE, Nat.mod_eq_of_lt (by omega)]
  simp [TXO.beq, hout]

theorem txo_toBytes_fromBytes_roundtrip_witness :
    TXO.beq (TXO.fromBytes (TXO.mk (List.replicate 32 0) 7).toBytes)
      (TXO.mk (List.replicate 32 0) 7) = true :=
  txo_toBytes_fromBytes_roundtrip (TXO.mk (List.replicate 32 0) 7)
    (by decide) (by decide)

/-- C2: the comparator `TXO::operator<` as written in the source
(`txHash < o.txHash && outN < o.outN`) evaluated at two keys sharing the
same 32-byte txHash with `outN` 0 versus 1: the code returns `false`,
although the claimed lexicographic ordering requires `a < b` to hold
there (equal txHash and `a.outN < b.outN`). -/
theorem txo_lt_not_lexicographic :
    TXO.lt (TXO.mk (List.replicate 32 0) 0) (TXO.mk (List.replicate 32 0) 1) = false
    ∧ (TXO.mk (List.replicate 32 0) 0).txHash = (TXO.mk (List.replicate 32 0) 1).txHash
    ∧ (TXO.mk (List.replicate 32 0) 0).outN < (TXO.mk (List.replicate 32 0) 1).outN := by
  refine ⟨?_, rfl, by decide⟩
  decide

/-- C4: `fromBytes` on a byte string of any wrong length (for `TXO`,
length ≠ `TXO.serSize`; for `TXOInfo`, length ≠ `TXOInfo.serSize`,
including empty and overlong input) returns the default instance, whose
`isValid` is `false`. -/
theorem fromBytes_wrong_length_invalid (ba bb : List Nat)
    (h1 : ba.length ≠ TXO.serSize) (h2 : bb.length ≠ TXOInfo.serSize) :
    (TXO.fromBytes ba).isValid = false ∧ (TXOInfo.fromBytes bb).isValid = false := by
  constructor
  · rw [TXO.fromBytes, if_pos h1]
    decide
  · rw [TXOInfo.fromBytes, if_pos h2]
    decide

theorem fromBytes_wrong_length_invalid_witness :
    (TXO.fromBytes []).isValid = false ∧ (TXOInfo.fromBytes []).isValid = false :=
  fromBytes_wrong_length_invalid [] [] (by decide) (by decide)

/-- C5: `toBytes` on an invalid `TXO` (txHash length ≠ `HashLen`) and on
an invalid `TXOInfo` (negative amount or wrong-length hashX) returns the
empty byte string. -/
theorem toBytes_invalid_empty (k : TXO) (r : TXOInfo)
    (hk : k.isValid = false) (hr : r.isValid = false) :
    k.toBytes = [] ∧ r.toBytes = [] := by
  constructor
  · rw [TXO.toBytes, if_neg (by simp [hk])]
  · rw [TXOInfo.toBytes, if_neg (by simp [hr])]

theorem toBytes_invalid_empty_witness :
    (TXO.mk [] 0).toBytes = []
    ∧ (TXOInfo.mk (-1) (List.replicate 32 0) none 0).toBytes = [] :=
  toBytes_invalid_empty (TXO.mk [] 0) (TXOInfo.mk (-1) (List.replicate 32 0) none 0)
    (by decide) (by decide)

/-- C10: `TXO.fromBytes` on any byte string of exactly `TXO.serSize`
bytes, whatever its content, yields a key with `isValid = true`: the
assigned txHash always has exactly `HashLen` bytes, so the validity check
detects only length errors. -/
theorem txo_fromBytes_exact_length_valid (ba : List Nat)
    (h : ba.length = TXO.serSize) : (TXO.fromBytes ba).isValid = true := by
  rw [TXO.fromBytes, if_neg (by omega)]
  have : (ba.take HashLen).length = HashLen := by
    rw [List.length_take]
    have : TXO.serSize = HashLen + ionumSize := rfl
    omega
  simp [TXO.isValid, this]

theorem txo_fromBytes_exact_length_valid_witness :
    (TXO.fromBytes (List.replicate 34 255)).isValid = true :=
  txo_fromBytes_exact_length_valid (List.replicate 34 255) (by decide)

theorem middle_field (A C T X : List Nat) (hA : A.length = 8) (hC : C.length = 4) :
    ((A ++ C ++ T ++ X).drop 8).take 4 = C := by
  rw [show A ++ C ++ T ++ X = A ++ (C ++ (T ++ X)) by simp,
    show (8 : Nat) = A.length by rw [hA], List.drop_left,
    show (4 : Nat) = C.length by rw [hC], List.take_left]

/-- C3: every valid `TXOInfo` record whose fields are representable in the
wire format (int64 amount, height in the non-negative int32 range, txNum
within the compact codec's width) round-trips through
`toBytes` / `fromBytes` to a fieldwise-equal record. -/
theorem txoinfo_toBytes_fromBytes_roundtrip (r : TXOInfo) (hv : r.isValid = true)
    (ha : r.amount < 2 ^ 63)
    (hh : ∀ hgt, r.confirmedHeight = some hgt → hgt < 2 ^ 31)
    (ht : r.txNum < 2 ^ 48) :
    TXOInfo.beq (TXOInfo.fromBytes r.toBytes) r = true := by
  have hv2 := hv
  simp only [TXOInfo.isValid, Bool.and_eq_true, decide_eq_true_eq, beq_iff_eq] at hv2
  have h0 : (0 : Int) ≤ r.amount := hv2.1
  have hxlen : r.hashX.length = 32 := hv2.2
  have hT : (txNumToCompactBytes r.txNum).length = 6 := by
    rw [txNumToCompactBytes, toLE_length]
    rfl
  rw [txoinfo_toBytes_layout r hv,
    txoinfo_fromBytes_parts (toLE 8 (r.amount % (2 : Int) ^ 64).toNat)
      (toLE 4 (match r.confirmedHeight with
        | some hh => hh % 2 ^ 32
        | none => 2 ^ 32 - 1))
      (txNumToCompactBytes r.txNum) r.hashX
      (toLE_length _ _) (toLE_length _ _) hT hxlen]
  have hamod : r.amount % (2 : Int) ^ 64 = r.amount := Int.emod_eq_of_lt h0 (by omega)
  have hAval : sint 64 (fromLE (toLE 8 (r.amount % (2 : Int) ^ 64).toNat)) = r.amount := by
    rw [hamod, fromLE_toLE, Nat.mod_eq_of_lt (by norm_num; omega),
      sint_64_of_lt _ (by omega), Int.toNat_of_nonneg h0]
  have hTval : fromLE (txNumToCompactBytes r.txNum) = r.txNum := by
    rw [txNumToCompactBytes, show compactTxNumSize = 6 from rfl, fromLE_toLE,
      Nat.mod_eq_of_lt (by norm_num; omega)]
  simp only [TXOInfo.beq, hAval, hTval]
  cases hch : r.confirmedHeight with
  | none =>
    have hs : sint 32 (fromLE (toLE 4 4294967295)) = -1 := by decide
    simp [hch, hs]
  | some hgt =>
    have hlt : hgt < 2 ^ 31 := hh hgt hch
    have h2 : fromLE (toLE 4 hgt) = hgt := by
      rw [fromLE_toLE, Nat.mod_eq_of_lt (by norm_num; omega)]
    have h3 : (-1 : Int) < (hgt : Int) := by omega
    simp [hch, show hgt % 4294967296 = hgt by omega, h2, sint_32_of_lt _ hlt, h3]

theorem txoinfo_toBytes_fromBytes_roundtrip_witness :
    TXOInfo.beq
      (TXOInfo.fromBytes (TXOInfo.mk 5000 (List.replicate 32 0) (some 650000) 123456).toBytes)
      (TXOInfo.mk 5000 (List.replicate 32 0) (some 650000) 123456) = true :=
  txoinfo_toBytes_fromBytes_roundtrip
    (TXOInfo.mk 5000 (List.replicate 32 0) (some 650000) 123456)
    (by decide) (by decide)
    (by intro hgt heq; injection heq with heq2; omega) (by decide)

/-- C6: on serialization of a valid record the 4-byte field at offset 8
holds the two's-complement bytes of `-1` (all ones) when
`confirmedHeight` is absent and the bytes of the height when present;
on deserialization of a `serSize`-length buffer `confirmedHeight` is
reconstructed as absent iff the decoded signed 32-bit sentinel is
negative, and every non-negative stored height decodes to present with
exactly that value. -/
theorem txoinfo_height_sentinel (r : TXOInfo) (ba : List Nat)
    (hv : r.isValid = true) (hb : ba.length = TXOInfo.serSize) :
    (r.confirmedHeight = none →
      (r.toBytes.drop 8).take 4 = toLE 4 (2 ^ 32 - 1))
    ∧ (∀ hgt, r.confirmedHeight = some hgt → hgt < 2 ^ 31 →
      (r.toBytes.drop 8).take 4 = toLE 4 hgt)
    ∧ ((TXOInfo.fromBytes ba).confirmedHeight = none
        ↔ sint 32 (fromLE ((ba.drop 8).take 4)) < 0)
    ∧ (∀ v, fromLE ((ba.drop 8).take 4) = v → v < 2 ^ 31 →
      (TXOInfo.fromBytes ba).confirmedHeight = some v) := by
  refine ⟨?_, ?_, ?_, ?_⟩
  · intro hch
    rw [txoinfo_toBytes_layout r hv, hch,
      middle_field _ _ _ _ (toLE_length _ _) (toLE_length _ _)]
  · intro hgt hch hlt
    rw [txoinfo_toBytes_layout r hv, hch,
      middle_field _ _ _ _ (toLE_length _ _) (toLE_length _ _)]
    show toLE 4 (hgt % 2 ^ 32) = toLE 4 hgt
    rw [show hgt % 2 ^ 32 = hgt by omega]
  · rw [TXOInfo.fromBytes, if_neg (by omega)]
    by_cases hs : sint 32 (fromLE ((ba.drop 8).take 4)) > -1
    · simp only [if_pos hs]
      constructor
      · intro hcontra
        simp at hcontra
      · intro hneg
        omega
    · simp only [if_neg hs]
      constructor
      · intro _
        omega
      · intro _
        trivial
  · intro v hveq hvlt
    rw [TXOInfo.fromBytes, if_neg (by omega)]
    have hs : sint 32 (fromLE ((ba.drop 8).take 4)) = (v : Int) := by
      rw [hveq, sint_32_of_lt _ hvlt]
    simp [hs, show (-1 : Int) < (v : Int) by omega]

theorem txoinfo_height_sentinel_witness :
    ((TXOInfo.mk 0 (List.replicate 32 0) none 0).toBytes.drop 8).take 4
        = toLE 4 (2 ^ 32 - 1)
    ∧ (TXOInfo.fromBytes (List.replicate 50 0)).confirmedHeight = some 0 :=
  ⟨(txoinfo_height_sentinel (TXOInfo.mk 0 (List.replicate 32 0) none 0)
      (List.replicate 50 0) (by decide) (by decide)).1 rfl,
    (txoinfo_height_sentinel (TXOInfo.mk 0 (List.replicate 32 0) none 0)
      (List.replicate 50 0) (by decide) (by decide)).2.2.2 0 (by decide) (by decide)⟩

theorem hashBuf_eq (xs N : List Nat) (hxs : xs.length ≤ 6) (hN : N.length = 2) :
    writeBytes (writeBytes (List.replicate 8 0) 0 xs) 6 N
      = xs ++ List.replicate (6 - xs.length) 0 ++ N := by
  rw [writeBytes_replicate_zero]
  have hsplit : xs ++ List.replicate (8 - xs.length) 0
      = (xs ++ List.replicate (6 - xs.length) 0) ++ List.replicate 2 0 := by
    rw [List.append_assoc, ← List.replicate_add]
    congr 2
    omega
  rw [hsplit,
    writeBytes_append _ _ N 6
      (by simp [List.length_append, List.length_replicate]; omega), hN]
  simp [List.drop_replicate, List.append_assoc]

theorem keyHasher_eq_spec_general (t : TXO) : keyHasher t = keyHasherSpec t := by
  simp only [keyHasher, keyHasherSpec]
  rw [show (8 - ionumSize : Nat) = 6 from rfl, show ionumSize = 2 from rfl]
  have hxs : (t.txHash.take (min t.txHash.length 6)).length ≤ 6 := by
    rw [List.length_take]
    omega
  have hlen2 : (t.txHash.take (min t.txHash.length 6)).length
      = min t.txHash.length 6 := by
    rw [List.length_take]
    omega
  rw [hashBuf_eq _ _ hxs (toLE_length _ _), hlen2]

/-- C7: the `std::hash<TXO>` digest is computed by exactly the algorithm
the spec gives (zero 8-byte buffer, first `min(|txHash|, 6)` hash bytes
at offset 0, raw `outN` bytes at offset 6, 64-bit mix of the buffer),
and it is a pure function of `(txHash, outN)`: keys equal under
`operator==` always hash to equal digests. -/
theorem keyHasher_spec_algorithm_deterministic (a b : TXO) (h : TXO.beq a b = true) :
    keyHasher a = keyHasherSpec a ∧ keyHasher a = keyHasher b := by
  have hab : a = b := by
    simp only [TXO.beq, Bool.and_eq_true, beq_iff_eq] at h
    cases a
    cases b
    simp_all
  exact ⟨keyHasher_eq_spec_general a, by rw [hab]⟩

theorem keyHasher_spec_algorithm_deterministic_witness :
    keyHasher (TXO.mk (List.replicate 32 1) 3)
        = keyHasherSpec (TXO.mk (List.replicate 32 1) 3)
    ∧ keyHasher (TXO.mk (List.replicate 32 1) 3)
        = keyHasher (TXO.mk (List.replicate 32 1) 3) :=
  keyHasher_spec_algorithm_deterministic
    (TXO.mk (List.replicate 32 1) 3) (TXO.mk (List.replicate 32 1) 3) (by decide)

/-- C8: the digest depends only on the first `8 - sizeof(IONum) = 6`
bytes of `txHash` together with `outN`: two keys whose txHash values
agree on their first 6 bytes and whose `outN` values are equal hash to
the same digest, even when the txHash values differ beyond byte 6. -/
theorem keyHasher_prefix_collision (a b : TXO)
    (h6 : a.txHash.take (8 - ionumSize) = b.txHash.take (8 - ionumSize))
    (ho : a.outN = b.outN) : keyHasher a = keyHasher b := by
  simp only [keyHasher]
  rw [take_min_length a.txHash, take_min_length b.txHash, h6, ho]

theorem keyHasher_prefix_collision_witness :
    TXO.mk (List.replicate 32 0) 7
        ≠ TXO.mk (List.replicate 6 0 ++ List.replicate 26 1) 7
    ∧ keyHasher (TXO.mk (List.replicate 32 0) 7)
        = keyHasher (TXO.mk (List.replicate 6 0 ++ List.replicate 26 1) 7) :=
  ⟨by decide,
    keyHasher_prefix_collision (TXO.mk (List.replicate 32 0) 7)
      (TXO.mk (List.replicate 6 0 ++ List.replicate 26 1) 7) (by decide) rfl⟩

/-- C9: the serialized sizes are the fixed constants
`TXO.serSize = HashLen + sizeof(IONum)` and
`TXOInfo.serSize = 8 + 4 + compactTxNumSize + HashLen`, and a valid
instance serializes to exactly `serSize` bytes laid out in field order
(txHash then outN; amount, height sentinel, compact txNum, hashX). -/
theorem serSize_constants_and_layout (k : TXO) (r : TXOInfo)
    (hk : k.isValid = true) (hr : r.isValid = true) :
    TXO.serSize = HashLen + ionumSize
    ∧ TXOInfo.serSize = 8 + 4 + compactTxNumSize + HashLen
    ∧ k.toBytes = k.txHash ++ toLE ionumSize k.outN
    ∧ k.toBytes.length = TXO.serSize
    ∧ r.toBytes = toLE 8 (r.amount % (2 : Int) ^ 64).toNat
        ++ toLE 4 (match r.confirmedHeight with
            | some hh => hh % 2 ^ 32
            | none => 2 ^ 32 - 1)
        ++ txNumToCompactBytes r.txNum ++ r.hashX
    ∧ r.toBytes.length = TXOInfo.serSize := by
  have hklen : k.txHash.length = HashLen := by
    simpa [TXO.isValid] using hk
  have hrlen : r.hashX.length = HashLen := by
    have hr2 := hr
    simp only [TXOInfo.isValid, Bool.and_eq_true, decide_eq_true_eq, beq_iff_eq] at hr2
    exact hr2.2
  refine ⟨rfl, rfl, txo_toBytes_layout k hk, ?_, txoinfo_toBytes_layout r hr, ?_⟩
  · rw [txo_toBytes_layout k hk]
    simp [toLE_length, hklen, TXO.serSize, HashLen, ionumSize]
  · rw [txoinfo_toBytes_layout r hr]
    simp [toLE_length, hrlen, TXOInfo.serSize, HashLen, compactTxNumSize,
      txNumToCompactBytes]

theorem serSize_constants_and_layout_witness :
    TXO.serSize = HashLen + ionumSize
    ∧ TXOInfo.serSize = 8 + 4 + compactTxNumSize + HashLen
    ∧ (TXO.mk (List.replicate 32 0) 7).toBytes
        = (TXO.mk (List.replicate 32 0) 7).txHash ++ toLE ionumSize 7
    ∧ (TXO.mk (List.replicate 32 0) 7).toBytes.length = TXO.serSize
    ∧ (TXOInfo.mk 1 (List.replicate 32 0) none 2).toBytes
        = toLE 8 ((1 : Int) % (2 : Int) ^ 64).toNat
          ++ toLE 4 (2 ^ 32 - 1) ++ txNumToCompactBytes 2 ++ List.replicate 32 0
    ∧ (TXOInfo.mk 1 (List.replicate 32 0) none 2).toBytes.length = TXOInfo.serSize :=
  serSize_constants_and_layout (TXO.mk (List.replicate 32 0) 7)
    (TXOInfo.mk 1 (List.replicate 32 0) none 2) (by decide) (by decide)
